import Mathlib

/-!
Shallow embedding of the behavioral-simulation core of the linkedin_bot
repository (pkg/stealth/stealth.go and the quota check of the connection
package), together with theorems settling the frozen claims about it.

Randomness is modelled explicitly: every call the Go code makes to
rand.Intn or rand.Float64 becomes an explicit draw parameter.  A draw for
rand.Intn(n) is a natural number reduced modulo n (any value in [0, n) is
reachable); rand.Intn panics when n is not positive, modelled by Option
with none as the panic outcome.  A draw for rand.Float64 is a rational,
assumed in [0, 1) where a claim needs that.  Milliseconds and pixel
deltas are integers; screen coordinates and probabilities are rationals.
-/

/-- Model of Go rand.Intn: uniform draw in [0, n), panic (none) when n ≤ 0. -/
def intn (n : ℤ) (draw : ℕ) : Option ℤ :=
  if n ≤ 0 then none else some ((draw : ℤ) % n)

/-! ## Cadence model: Stealth.HumanType (stealth.go lines 84-104) -/

/-- Typing section of the stealth configuration (config.go TypingConfig). -/
structure TypingConfig where
  enabled : Bool
  minKeystrokeDelay : ℤ
  maxKeystrokeDelay : ℤ
  typoProbability : ℚ

/-- One primitive operation of the typing loop: a committed input of a text
character, the typo input of the fixed substitute character, a backspace
input, or a sleep of a number of milliseconds. -/
inductive TypeOp where
  | commit (c : Char)
  | typo (c : Char)
  | backspace
  | sleep (d : ℤ)
deriving DecidableEq, Repr

/-- Body of the per-character loop of HumanType.  The character is input
first; when typing is enabled a delay is sampled once, then with
probability typoProbability the substitute character and a backspace are
input (each followed by a sleep of that same delay), and finally the loop
sleeps that delay again.  none models the rand.Intn panic on a
non-positive delay range. -/
def charOps (cfg : TypingConfig) (dInt : ℕ → ℕ) (dFloat : ℕ → ℚ) (i : ℕ)
    (c : Char) : Option (List TypeOp) :=
  if cfg.enabled then
    (intn (cfg.maxKeystrokeDelay - cfg.minKeystrokeDelay) (dInt i)).map
      (fun r =>
        let d := r + cfg.minKeystrokeDelay
        if dFloat i < cfg.typoProbability then
          [TypeOp.commit c, TypeOp.typo ('x'), TypeOp.sleep d,
           TypeOp.backspace, TypeOp.sleep d, TypeOp.sleep d]
        else
          [TypeOp.commit c, TypeOp.sleep d])
  else
    some [TypeOp.commit c]

/-- Recursion over the remaining characters, carrying the character index
used to address the draw streams. -/
def HumanTypeAux (cfg : TypingConfig) (dInt : ℕ → ℕ) (dFloat : ℕ → ℚ) :
    ℕ → List Char → Option (List TypeOp)
  | _, [] => some []
  | i, c :: cs =>
    match charOps cfg dInt dFloat i c, HumanTypeAux cfg dInt dFloat (i + 1) cs with
    | some ops, some rest => some (ops ++ rest)
    | _, _ => none

/-- Embedding of Stealth.HumanType: the full plan of primitive typing
operations for a text, or none when the sampled delay range makes
rand.Intn panic. -/
def HumanType (cfg : TypingConfig) (text : String) (dInt : ℕ → ℕ)
    (dFloat : ℕ → ℚ) : Option (List TypeOp) :=
  HumanTypeAux cfg dInt dFloat 0 text.toList

/-- The characters committed by a plan, in order, ignoring typo inputs,
backspaces and sleeps. -/
def committedChars : List TypeOp → List Char
  | [] => []
  | TypeOp.commit c :: rest => c :: committedChars rest
  | TypeOp.typo _ :: rest => committedChars rest
  | TypeOp.backspace :: rest => committedChars rest
  | TypeOp.sleep _ :: rest => committedChars rest

theorem committedChars_append (l1 l2 : List TypeOp) :
    committedChars (l1 ++ l2) = committedChars l1 ++ committedChars l2 := by
  induction l1 with
  | nil => rfl
  | cons op rest ih => cases op <;> simp [committedChars, ih]

theorem charOps_committed (cfg : TypingConfig) (dInt : ℕ → ℕ)
    (dFloat : ℕ → ℚ) (i : ℕ) (c : Char) (ops : List TypeOp)
    (h : charOps cfg dInt dFloat i c = some ops) :
    committedChars ops = [c] := by
  unfold charOps at h
  split at h
  · rcases Option.map_eq_some'.mp h with ⟨r, _, hr⟩
    subst hr
    split <;> simp [committedChars]
  · simp only [Option.some.injEq] at h
    subst h
    simp [committedChars]

theorem humanTypeAux_committed (cfg : TypingConfig) (dInt : ℕ → ℕ)
    (dFloat : ℕ → ℚ) :
    ∀ (cs : List Char) (i : ℕ) (plan : List TypeOp),
      HumanTypeAux cfg dInt dFloat i cs = some plan →
      committedChars plan = cs := by
  intro cs
  induction cs with
  | nil =>
    intro i plan h
    simp only [HumanTypeAux, Option.some.injEq] at h
    subst h
    rfl
  | cons c rest ih =>
    intro i plan h
    unfold HumanTypeAux at h
    cases hc : charOps cfg dInt dFloat i c with
    | none => rw [hc] at h; exact absurd h (by simp)
    | some ops =>
      cases hr : HumanTypeAux cfg dInt dFloat (i + 1) rest with
      | none => rw [hc, hr] at h; exact absurd h (by simp)
      | some planRest =>
        rw [hc, hr] at h
        simp only [Option.some.injEq] at h
        subst h
        rw [committedChars_append, charOps_committed cfg dInt dFloat i c ops hc,
          ih (i + 1) planRest hr]
        rfl

/-- Sample configuration used in witnesses: typing enabled, delays in
[1, 3), typo probability one. -/
def cfgOne : TypingConfig :=
  { enabled := true, minKeystrokeDelay := 1, maxKeystrokeDelay := 3,
    typoProbability := 1 }

/-- Constant-zero integer draw stream. -/
def zN : ℕ → ℕ := fun _ => 0

/-- Constant-zero float draw stream. -/
def zQ : ℕ → ℚ := fun _ => 0

/-- Two-character sample text. -/
def textAB : String := "ab"

/-- The plan HumanType produces for textAB under cfgOne and zero draws. -/
def planAB : List TypeOp :=
  [TypeOp.commit ('a'), TypeOp.typo ('x'), TypeOp.sleep 1, TypeOp.backspace,
   TypeOp.sleep 1, TypeOp.sleep 1,
   TypeOp.commit ('b'), TypeOp.typo ('x'), TypeOp.sleep 1, TypeOp.backspace,
   TypeOp.sleep 1, TypeOp.sleep 1]

example : HumanType cfgOne textAB zN zQ = some planAB := by decide

/-- Claim C2: for every configuration, every typo probability and every
text (the empty text giving the empty plan), whenever HumanType produces a
plan, the committed characters of that plan, in order, are exactly the
characters of the input text. -/
theorem humanType_committed_eq_text :
    (∀ (cfg : TypingConfig) (dInt : ℕ → ℕ) (dFloat : ℕ → ℚ),
        HumanType cfg (String.mk []) dInt dFloat = some []) ∧
    (∀ (cfg : TypingConfig) (text : String) (dInt : ℕ → ℕ) (dFloat : ℕ → ℚ)
        (plan : List TypeOp),
        HumanType cfg text dInt dFloat = some plan →
        committedChars plan = text.toList) := by
  constructor
  · intro cfg dInt dFloat
    rfl
  · intro cfg text dInt dFloat plan h
    exact humanTypeAux_committed cfg dInt dFloat text.toList 0 plan h

/-- Witness for C2 at a concrete input: the plan generated for the text
textAB commits exactly its two characters. -/
theorem humanType_committed_eq_text_witness :
    committedChars planAB = textAB.toList :=
  humanType_committed_eq_text.2 cfgOne textAB zN zQ planAB (by decide)

/-- One-character sample text. -/
def textA : String := "a"

/-- The plan HumanType produces for textA under cfgOne and zero draws: the
character is committed first, then the typo and the backspace follow it. -/
def planA : List TypeOp :=
  [TypeOp.commit ('a'), TypeOp.typo ('x'), TypeOp.sleep 1, TypeOp.backspace,
   TypeOp.sleep 1, TypeOp.sleep 1]

/-- Test for a committed-character event. -/
def isCommitOp : TypeOp → Bool
  | TypeOp.commit _ => true
  | _ => false

/-- Test for a typo-keystroke event. -/
def isTypoOp : TypeOp → Bool
  | TypeOp.typo _ => true
  | _ => false

/-- The property claimed by C1 of a plan: every committed character has a
typo keystroke somewhere before it in the plan. -/
def EveryCommitPreceded (plan : List TypeOp) : Prop :=
  ∀ j, (h : j < plan.length) → isCommitOp (plan.get ⟨j, h⟩) = true →
    ∃ k, ∃ hk : k < plan.length, k < j ∧ isTypoOp (plan.get ⟨k, hk⟩) = true

/-- Counterexample to claim C1 as stated: with typoProbability one and
typing enabled, the plan for the one-character text textA starts with the
committed character itself; the typo keystroke and the backspace come
after it, so no character is preceded by its typo keystroke. -/
theorem humanType_typo_precedes_counterexample :
    HumanType cfgOne textA zN zQ = some planA ∧ ¬ EveryCommitPreceded planA := by
  refine ⟨by decide, fun h => ?_⟩
  rcases h 0 (by decide) (by decide) with ⟨k, hk, hklt, _⟩
  exact absurd hklt (Nat.not_lt_zero k)

/-- Boolean check that a plan is a concatenation of blocks of the shape
committed character, typo keystroke, sleep, backspace, sleep, sleep. -/
def allTypoBlocks : List TypeOp → Bool
  | [] => true
  | TypeOp.commit _ :: TypeOp.typo _ :: TypeOp.sleep _ :: TypeOp.backspace ::
      TypeOp.sleep _ :: TypeOp.sleep _ :: rest => allTypoBlocks rest
  | _ => false

theorem humanTypeAux_typo1 (cfg : TypingConfig) (dInt : ℕ → ℕ)
    (dFloat : ℕ → ℚ) (he : cfg.enabled = true) (hp : cfg.typoProbability = 1)
    (hlt : cfg.minKeystrokeDelay < cfg.maxKeystrokeDelay)
    (hf : ∀ i, dFloat i < 1) :
    ∀ (cs : List Char) (i : ℕ),
      ∃ plan, HumanTypeAux cfg dInt dFloat i cs = some plan ∧
        allTypoBlocks plan = true ∧ committedChars plan = cs := by
  intro cs
  induction cs with
  | nil => exact fun i => ⟨[], rfl, rfl, rfl⟩
  | cons c rest ih =>
    intro i
    rcases ih (i + 1) with ⟨planRest, hrest, hblocks, hcomm⟩
    have hn : ¬ cfg.maxKeystrokeDelay - cfg.minKeystrokeDelay ≤ 0 := by omega
    have hops : charOps cfg dInt dFloat i c =
        some [TypeOp.commit c, TypeOp.typo ('x'),
          TypeOp.sleep ((dInt i : ℤ) % (cfg.maxKeystrokeDelay - cfg.minKeystrokeDelay)
            + cfg.minKeystrokeDelay),
          TypeOp.backspace,
          TypeOp.sleep ((dInt i : ℤ) % (cfg.maxKeystrokeDelay - cfg.minKeystrokeDelay)
            + cfg.minKeystrokeDelay),
          TypeOp.sleep ((dInt i : ℤ) % (cfg.maxKeystrokeDelay - cfg.minKeystrokeDelay)
            + cfg.minKeystrokeDelay)] := by
      rw [charOps, if_pos he, intn, if_neg hn]
      simp only [Option.map_some']
      rw [if_pos (by rw [hp]; exact hf i)]
    refine ⟨[TypeOp.commit c, TypeOp.typo ('x'),
        TypeOp.sleep ((dInt i : ℤ) % (cfg.maxKeystrokeDelay - cfg.minKeystrokeDelay)
          + cfg.minKeystrokeDelay),
        TypeOp.backspace,
        TypeOp.sleep ((dInt i : ℤ) % (cfg.maxKeystrokeDelay - cfg.minKeystrokeDelay)
          + cfg.minKeystrokeDelay),
        TypeOp.sleep ((dInt i : ℤ) % (cfg.maxKeystrokeDelay - cfg.minKeystrokeDelay)
          + cfg.minKeystrokeDelay)] ++ planRest, ?_, ?_, ?_⟩
    · rw [HumanTypeAux, hops, hrest]
    · simpa [allTypoBlocks] using hblocks
    · simp [committedChars_append, committedChars, hcomm]

/-- Claim C1 amended: with typing enabled, typoProbability one and a
non-degenerate delay range, the plan consists of one block per character
in which the committed character comes first and is immediately followed
by exactly one typo keystroke and one backspace (the typo and backspace
follow the commit rather than precede it); the committed characters still
equal the input text. -/
theorem humanType_typo1_blocks (cfg : TypingConfig) (text : String)
    (dInt : ℕ → ℕ) (dFloat : ℕ → ℚ) (he : cfg.enabled = true)
    (hp : cfg.typoProbability = 1)
    (hlt : cfg.minKeystrokeDelay < cfg.maxKeystrokeDelay)
    (hf : ∀ i, dFloat i < 1) :
    ∃ plan, HumanType cfg text dInt dFloat = some plan ∧
      allTypoBlocks plan = true ∧ committedChars plan = text.toList :=
  humanTypeAux_typo1 cfg dInt dFloat he hp hlt hf text.toList 0

/-- Witness for the amended C1 at a concrete input. -/
theorem humanType_typo1_blocks_witness :
    ∃ plan, HumanType cfgOne textAB zN zQ = some plan ∧
      allTypoBlocks plan = true ∧ committedChars plan = textAB.toList :=
  humanType_typo1_blocks cfgOne textAB zN zQ rfl rfl (by decide)
    (fun _ => by unfold zQ; norm_num)

/-- Claim C10: with typing enabled, the events generated for one character
of the text form either a typo block or a plain block, and in both shapes
every sleep carries the single delay value sampled once for that
character. -/
theorem charOps_single_delay (cfg : TypingConfig) (dInt : ℕ → ℕ)
    (dFloat : ℕ → ℚ) (i : ℕ) (c : Char) (ops : List TypeOp)
    (he : cfg.enabled = true) (h : charOps cfg dInt dFloat i c = some ops) :
    ∃ d, ops = [TypeOp.commit c, TypeOp.typo ('x'), TypeOp.sleep d,
        TypeOp.backspace, TypeOp.sleep d, TypeOp.sleep d] ∨
      ops = [TypeOp.commit c, TypeOp.sleep d] := by
  rw [charOps, if_pos he] at h
  rcases Option.map_eq_some'.mp h with ⟨r, _, hr⟩
  subst hr
  by_cases ht : dFloat i < cfg.typoProbability
  · exact ⟨r + cfg.minKeystrokeDelay, Or.inl (by rw [if_pos ht])⟩
  · exact ⟨r + cfg.minKeystrokeDelay, Or.inr (by rw [if_neg ht])⟩

/-- Witness for C10 at a concrete input. -/
theorem charOps_single_delay_witness :
    ∃ d, [TypeOp.commit ('a'), TypeOp.typo ('x'), TypeOp.sleep d,
        TypeOp.backspace, TypeOp.sleep d, TypeOp.sleep d] =
        [TypeOp.commit ('a'), TypeOp.typo ('x'), TypeOp.sleep 1,
          TypeOp.backspace, TypeOp.sleep 1, TypeOp.sleep 1] ∨
      [TypeOp.commit ('a'), TypeOp.typo ('x'), TypeOp.sleep 1,
        TypeOp.backspace, TypeOp.sleep 1, TypeOp.sleep 1] =
        [TypeOp.commit ('a'), TypeOp.sleep d] := by
  rcases charOps_single_delay cfgOne zN zQ 0 ('a')
      [TypeOp.commit ('a'), TypeOp.typo ('x'), TypeOp.sleep 1,
        TypeOp.backspace, TypeOp.sleep 1, TypeOp.sleep 1] rfl (by decide)
    with ⟨d, hd⟩
  exact ⟨d, hd.imp (fun h => h.symm) (fun h => h)⟩

/-! ## Timing delay: Stealth.RandomDelay (stealth.go lines 135-147) -/

/-- Embedding of Stealth.RandomDelay: when timing is enabled, the think
time range is normalized (an inverted or degenerate range is replaced by
max = min + 1) before sampling; when disabled no delay is taken. -/
def RandomDelay (enabled : Bool) (minThink maxThink : ℤ) (draw : ℕ) :
    Option ℤ :=
  if !enabled then some 0
  else
    let maxAdj := if maxThink ≤ minThink then minThink + 1 else maxThink
    (intn (maxAdj - minThink) draw).map (fun r => r + minThink)

/-! ## Hover model: Stealth.hoverOverElement (stealth.go lines 209-212) -/

/-- Embedding of Stealth.hoverOverElement: the hover duration is sampled
by rand.Intn over the configured range with no normalization, so a
degenerate range panics (none). -/
def hoverOverElement (durMin durMax : ℤ) (draw : ℕ) : Option ℤ :=
  (intn (durMax - durMin) draw).map (fun r => r + durMin)

/-- Degenerate typing configuration: delay range collapsed to a point. -/
def cfgDegenerate : TypingConfig :=
  { enabled := true, minKeystrokeDelay := 5, maxKeystrokeDelay := 5,
    typoProbability := 0 }

/-- Counterexample to claim C8 as stated: on a degenerate range the typing
cadence generator and the hover duration generator do not normalize; they
fail (the rand.Intn panic, modelled as none), so it is false that every
generator normalizes max to min + 1 and never fails. -/
theorem generators_never_fail_counterexample :
    HumanType cfgDegenerate textA zN zQ = none ∧
      hoverOverElement 5 5 0 = none := by
  constructor <;> decide

/-- Claim C8 amended: only the think-time delay generator RandomDelay
normalizes a degenerate range (treating max as min + 1, so it returns min
whenever max ≤ min) and never fails; the typing cadence and hover
duration generators fail on a degenerate range instead of normalizing
it. -/
theorem randomDelay_normalizes_others_fail :
    (∀ (enabled : Bool) (minThink maxThink : ℤ) (draw : ℕ),
        (RandomDelay enabled minThink maxThink draw).isSome = true) ∧
    (∀ (minThink maxThink : ℤ) (draw : ℕ), maxThink ≤ minThink →
        RandomDelay true minThink maxThink draw = some minThink) ∧
    (∀ (durMin durMax : ℤ) (draw : ℕ), durMax ≤ durMin →
        hoverOverElement durMin durMax draw = none) ∧
    (∀ (cfg : TypingConfig) (text : String) (c : Char) (cs : List Char)
        (dInt : ℕ → ℕ) (dFloat : ℕ → ℚ), cfg.enabled = true →
        cfg.maxKeystrokeDelay ≤ cfg.minKeystrokeDelay →
        text.toList = c :: cs →
        HumanType cfg text dInt dFloat = none) := by
  refine ⟨?_, ?_, ?_, ?_⟩
  · intro enabled minThink maxThink draw
    cases enabled with
    | false => rfl
    | true =>
      rw [RandomDelay]
      simp only [Bool.not_true, Bool.false_eq_true, if_false]
      split
      · rw [intn, if_neg (by omega)]
        rfl
      · rw [intn, if_neg (by omega)]
        rfl
  · intro minThink maxThink draw hle
    rw [RandomDelay]
    simp only [Bool.not_true, Bool.false_eq_true, if_false, if_pos hle]
    rw [intn, if_neg (by omega)]
    have : minThink + 1 - minThink = 1 := by ring
    rw [this, Int.emod_one]
    simp
  · intro durMin durMax draw hle
    rw [hoverOverElement, intn, if_pos (by omega)]
    rfl
  · intro cfg text c cs dInt dFloat he hle htl
    rw [HumanType, htl, HumanTypeAux, charOps, if_pos he, intn,
      if_pos (by omega)]
    rfl

/-- Witness for the amended C8 at concrete inputs. -/
theorem randomDelay_normalizes_others_fail_witness :
    (RandomDelay true 7 7 4).isSome = true ∧
      RandomDelay true 7 7 4 = some 7 ∧
      hoverOverElement 5 5 0 = none ∧
      HumanType cfgDegenerate textA zN zQ = none :=
  ⟨randomDelay_normalizes_others_fail.1 true 7 7 4,
   randomDelay_normalizes_others_fail.2.1 7 7 4 (by decide),
   randomDelay_normalizes_others_fail.2.2.1 5 5 0 (by decide),
   randomDelay_normalizes_others_fail.2.2.2 cfgDegenerate textA ('a') []
     zN zQ rfl (by decide) (by decide)⟩

/-! ## Schedule gate: Stealth.RandomBreak (stealth.go lines 59-68) -/

/-- Embedding of Stealth.RandomBreak: no break when scheduling is
disabled; otherwise, with probability breakProbability, a break of
rand.Intn(300) + 60 seconds. -/
def RandomBreak (schedulingEnabled : Bool) (breakProbability : ℚ)
    (pDraw : ℚ) (dDraw : ℕ) : Option ℤ :=
  if !schedulingEnabled then none
  else if pDraw < breakProbability then some ((dDraw : ℤ) % 300 + 60)
  else none

/-- Claim C9 is a code bug: the comment in RandomBreak announces a break
of one to five minutes (60 to 300 seconds), but rand.Intn(300) + 60
ranges up to 359 seconds.  At the draw 299 the produced break is 359
seconds, exceeding the documented 300-second bound; the disabled gate
does produce no break. -/
theorem randomBreak_range_code_bug :
    RandomBreak true 1 0 299 = some 359 ∧ ¬ ((359 : ℤ) ≤ 300) ∧
      (∀ (breakProbability pDraw : ℚ) (dDraw : ℕ),
        RandomBreak false breakProbability pDraw dDraw = none) := by
  refine ⟨by decide, by decide, fun _ _ _ => rfl⟩

/-! ## Daily quota: Connection.SendConnectionRequests and
Connection.getConnectionsSentToday (stealth.go source part 2, the
connection package) -/

/-- The persisted connection_requests rows, reduced to the calendar date
of each sent_at value (an integer day number). -/
abbrev QuotaStore := List ℤ

/-- Embedding of Connection.getConnectionsSentToday: the count of rows
whose DATE(sent_at) is the current date. -/
def getConnectionsSentToday (store : QuotaStore) (today : ℤ) : ℕ :=
  store.countP (fun d => d = today)

/-- Embedding of one quota-checked connection attempt from
Connection.SendConnectionRequests: remaining = dailyLimit - sentToday; if
remaining ≤ 0 the attempt is rejected with the daily-limit error,
otherwise the request is sent and saved (saveConnectionRequest inserts a
row dated today). -/
def connectionAttempt (dailyLimit : ℤ) (store : QuotaStore) (today : ℤ) :
    Except String QuotaStore :=
  if dailyLimit - (getConnectionsSentToday store today : ℤ) ≤ 0 then
    Except.error ("daily limit reached")
  else
    Except.ok (today :: store)

/-- Claim C7: with dailyLimit 3 and an empty store, three attempts on one
date succeed; the fourth attempt on that date is rejected with the
daily-limit error; on the following date the count is back to 0 and an
attempt succeeds again. -/
theorem dailyLimit_three_then_reject (today : ℤ) :
    connectionAttempt 3 [] today = Except.ok [today] ∧
    connectionAttempt 3 [today] today = Except.ok [today, today] ∧
    connectionAttempt 3 [today, today] today =
      Except.ok [today, today, today] ∧
    connectionAttempt 3 [today, today, today] today =
      Except.error ("daily limit reached") ∧
    getConnectionsSentToday [today, today, today] (today + 1) = 0 ∧
    connectionAttempt 3 [today, today, today] (today + 1) =
      Except.ok [today + 1, today, today, today] := by
  have hne : ((today + 1 = today) : Prop) = False := by
    simp only [eq_iff_iff, iff_false]
    omega
  refine ⟨?_, ?_, ?_, ?_, ?_, ?_⟩ <;>
    simp [connectionAttempt, getConnectionsSentToday, List.countP_cons, hne]

/-! ## Scroll model: Stealth.ScrollHumanLike (stealth.go lines 107-132) -/

/-- Model of the Go conversion int(f) of a float: truncation toward
zero. -/
def trunc (q : ℚ) : ℤ := if q < 0 then ⌈q⌉ else ⌊q⌋

theorem trunc_intCast (n : ℤ) : trunc ((n : ℚ)) = n := by
  rw [trunc]
  split
  · rw [Int.ceil_intCast]
  · rw [Int.floor_intCast]

theorem trunc_div_nat (n : ℤ) (m : ℕ) (h : 0 ≤ n) :
    trunc ((n : ℚ) / (m : ℚ)) = n / (m : ℤ) := by
  rw [trunc,
    if_neg (not_lt.mpr (div_nonneg (by exact_mod_cast h) (Nat.cast_nonneg m))),
    Rat.floor_intCast_div_natCast]

/-- The random draws consumed by one call of ScrollHumanLike. -/
structure ScrollDraws where
  stepsDraw : ℕ
  varDraw : ℕ → ℚ
  delayDraw : ℕ → ℕ
  backFloat : ℚ
  backDraw : ℕ
  backDelayDraw : ℕ

/-- Embedding of Stealth.ScrollHumanLike as the scroll plan it executes:
a list of (delta, delay in ms) pairs.  Disabled scrolling scrolls the
whole distance at once.  Enabled scrolling takes 5 to 14 steps of size
int(stepSize * variance) and may append one negative scroll-back segment
of rand.Intn(distance/4) + 10 pixels (none models the rand.Intn panic
when distance/4 is not positive). -/
def ScrollHumanLike (enabled : Bool) (scrollSpeedVariance backProb : ℚ)
    (distance : ℤ) (r : ScrollDraws) : Option (List (ℤ × ℤ)) :=
  if !enabled then some [(distance, 0)]
  else
    let steps := r.stepsDraw % 10 + 5
    let stepSize : ℚ := (distance : ℚ) / (steps : ℚ)
    let fwd := (List.range steps).map (fun i =>
      let variance := 1 + (r.varDraw i - 1/2) * scrollSpeedVariance
      (trunc (stepSize * variance), ((r.delayDraw i % 200 + 50 : ℕ) : ℤ)))
    if r.backFloat < backProb then
      match intn (distance / 4) r.backDraw with
      | none => none
      | some b =>
        some (fwd ++ [(-(b + 10), ((r.backDelayDraw % 1000 + 500 : ℕ) : ℤ))])
    else some fwd

/-- Scroll draw record with every draw zero. -/
def rZero : ScrollDraws :=
  { stepsDraw := 0, varDraw := fun _ => 0, delayDraw := fun _ => 0,
    backFloat := 0, backDraw := 0, backDelayDraw := 0 }

/-- Counterexample to claim C5 as stated: with scroll_speed_variance 1,
distance 1000 and all float draws 0, every per-step variance is 1/2, so
the five deltas are 100 each and their sum is 500, off from the requested
1000 by 500, far beyond the integer rounding tolerance of one pixel per
step (5 here, 14 at most). -/
theorem scroll_sum_counterexample :
    ScrollHumanLike true 1 0 1000 rZero =
      some (List.replicate 5 ((100 : ℤ), (50 : ℤ))) ∧
    ((List.replicate 5 ((100 : ℤ), (50 : ℤ))).map Prod.fst).sum = 500 ∧
    ¬ (|(500 : ℤ) - 1000| < 14) := by
  refine ⟨?_, by decide, by decide⟩
  have harg : (1000 : ℚ) / ((5 : ℕ) : ℚ) * (1 + ((0 : ℚ) - 1/2) * 1) =
      ((100 : ℤ) : ℚ) := by
    push_cast
    norm_num
  have h100 : trunc ((100 : ℚ)) = 100 := by
    rw [show ((100 : ℚ)) = ((100 : ℤ) : ℚ) by norm_num, trunc_intCast]
  rw [ScrollHumanLike]
  simp only [rZero, Bool.not_true, Bool.false_eq_true, if_false,
    lt_irrefl, ite_false]
  norm_num [List.range_succ, harg, h100, List.replicate]

/-- Claim C5 amended: with scroll_back_probability 0 and
scroll_speed_variance 0 (no per-step variance), for every non-negative
distance the generated plan exists, has no negative delta, and the sum of
its deltas equals the distance within the integer rounding tolerance of
one pixel per step; a nonzero variance breaks the sum property. -/
theorem scroll_sum_no_variance (d : ℤ) (r : ScrollDraws) (hd : 0 ≤ d)
    (hb : 0 ≤ r.backFloat) :
    ∃ plan, ScrollHumanLike true 0 0 d r = some plan ∧
      (∀ p ∈ plan, 0 ≤ p.1) ∧
      |((plan.map Prod.fst).sum) - d| < ((r.stepsDraw % 10 + 5 : ℕ) : ℤ) := by
  refine ⟨(List.range (r.stepsDraw % 10 + 5)).map (fun i =>
      ((trunc ((d : ℚ) / ((r.stepsDraw % 10 + 5 : ℕ) : ℚ) *
        (1 + (r.varDraw i - 1/2) * 0)),
        ((r.delayDraw i % 200 + 50 : ℕ) : ℤ)) : ℤ × ℤ)), ?_, ?_, ?_⟩
  · rw [ScrollHumanLike]
    simp only [Bool.not_true, Bool.false_eq_true, if_false,
      if_neg (not_lt.mpr hb)]
  · intro p hp
    simp only [List.mem_map, List.mem_range] at hp
    rcases hp with ⟨i, _, hpi⟩
    subst hpi
    simp only [mul_zero, add_zero, mul_one]
    rw [trunc_div_nat d (r.stepsDraw % 10 + 5) hd]
    exact Int.ediv_nonneg hd (by positivity)
  · rw [List.map_map]
    have hfun : ∀ i ∈ List.range (r.stepsDraw % 10 + 5),
        (Prod.fst ∘ (fun i =>
          ((trunc ((d : ℚ) / ((r.stepsDraw % 10 + 5 : ℕ) : ℚ) *
            (1 + (r.varDraw i - 1/2) * 0)),
            ((r.delayDraw i % 200 + 50 : ℕ) : ℤ)) : ℤ × ℤ))) i =
        (fun _ : ℕ => d / ((r.stepsDraw % 10 + 5 : ℕ) : ℤ)) i := by
      intro i _
      simp only [Function.comp_apply, mul_zero, add_zero, mul_one]
      exact trunc_div_nat d (r.stepsDraw % 10 + 5) hd
    rw [List.map_congr_left hfun, List.map_const', List.length_range,
      List.sum_replicate, nsmul_eq_mul]
    have hq := Int.ediv_add_emod d ((r.stepsDraw % 10 + 5 : ℕ) : ℤ)
    have hm0 : 0 ≤ d % ((r.stepsDraw % 10 + 5 : ℕ) : ℤ) :=
      Int.emod_nonneg d (by positivity)
    have hm1 : d % ((r.stepsDraw % 10 + 5 : ℕ) : ℤ) <
        ((r.stepsDraw % 10 + 5 : ℕ) : ℤ) :=
      Int.emod_lt_of_pos d (by positivity)
    rw [abs_sub_lt_iff]
    constructor <;> linarith

/-- Witness for the amended C5 at a concrete input. -/
theorem scroll_sum_no_variance_witness :
    ∃ plan, ScrollHumanLike true 0 0 1000 rZero = some plan ∧
      (∀ p ∈ plan, 0 ≤ p.1) ∧
      |((plan.map Prod.fst).sum) - 1000| <
        ((rZero.stepsDraw % 10 + 5 : ℕ) : ℤ) :=
  scroll_sum_no_variance 1000 rZero (by decide) (by decide)

/-- The plan generated for distance 8 with scroll-back forced. -/
def plan8 : List (ℤ × ℤ) :=
  [(1, 50), (1, 50), (1, 50), (1, 50), (1, 50), (-10, 500)]

/-- Counterexample to claim C6 as stated: for the positive requested
distance 8, the back-scroll delta is rand.Intn(8/4) + 10, at least 10, so
its magnitude can exceed the whole distance; here the plan ends with
delta -10 while the distance is 8, and the cumulative displacement
5 - 10 is negative. -/
theorem scroll_back_counterexample :
    ScrollHumanLike true 0 1 8 rZero = some plan8 ∧
      plan8.getLast?.map Prod.fst = some (-10) ∧ ¬ ((10 : ℤ) < 8) ∧
      ((plan8.map Prod.fst).sum = -5 ∧ ¬ (0 ≤ (-5 : ℤ))) := by
  refine ⟨?_, by decide, by decide, by decide, by decide⟩
  have h1 : trunc (((8 : ℤ) : ℚ) / ((5 : ℕ) : ℚ) *
      (1 + ((0 : ℚ) - 1/2) * 0)) = 1 := by
    rw [mul_zero, add_zero, mul_one, trunc_div_nat 8 5 (by decide)]
    decide
  have h2 : trunc ((8 : ℚ) / 5) = 1 := by
    rw [show ((8 : ℚ) / 5) = ((8 : ℤ) : ℚ) / ((5 : ℕ) : ℚ) by push_cast; ring,
      trunc_div_nat 8 5 (by decide)]
    decide
  rw [ScrollHumanLike]
  simp only [rZero, Bool.not_true, Bool.false_eq_true, if_false]
  norm_num [List.range_succ, h1, h2, intn, plan8]

/-- Claim C6 amended: whenever the scroll model appends a back-scroll
segment for a requested distance of at least 13, the magnitude of its
negative delta, rand.Intn(distance/4) + 10, is strictly smaller than the
distance (for distances below 13 the magnitude can reach or exceed the
distance, and the cumulative displacement can become negative, so the
displacement clause is dropped). -/
theorem scroll_back_magnitude_lt (d : ℤ) (V backProb : ℚ) (r : ScrollDraws)
    (hd : 13 ≤ d) (hb : r.backFloat < backProb) :
    ∃ plan b, ScrollHumanLike true V backProb d r = some plan ∧
      plan.getLast? =
        some (-(b + 10), ((r.backDelayDraw % 1000 + 500 : ℕ) : ℤ)) ∧
      0 < b + 10 ∧ b + 10 < d := by
  have h4 : 0 < d / 4 := by omega
  have hbd0 : 0 ≤ (r.backDraw : ℤ) % (d / 4) := Int.emod_nonneg _ (by omega)
  have hbd1 : (r.backDraw : ℤ) % (d / 4) < d / 4 := Int.emod_lt_of_pos _ h4
  refine ⟨(List.range (r.stepsDraw % 10 + 5)).map (fun i =>
      ((trunc ((d : ℚ) / ((r.stepsDraw % 10 + 5 : ℕ) : ℚ) *
        (1 + (r.varDraw i - 1/2) * V)),
        ((r.delayDraw i % 200 + 50 : ℕ) : ℤ)) : ℤ × ℤ)) ++
      [(-(((r.backDraw : ℤ) % (d / 4)) + 10),
        ((r.backDelayDraw % 1000 + 500 : ℕ) : ℤ))],
    (r.backDraw : ℤ) % (d / 4), ?_, ?_, by omega, by omega⟩
  · rw [ScrollHumanLike]
    simp only [Bool.not_true, Bool.false_eq_true, if_false, if_pos hb]
    rw [intn, if_neg (by omega)]
  · exact List.getLast?_concat _

/-- Witness for the amended C6 at a concrete input. -/
theorem scroll_back_magnitude_lt_witness :
    ∃ plan b, ScrollHumanLike true 0 1 16 rZero = some plan ∧
      plan.getLast? =
        some (-(b + 10), ((rZero.backDelayDraw % 1000 + 500 : ℕ) : ℤ)) ∧
      0 < b + 10 ∧ b + 10 < 16 :=
  scroll_back_magnitude_lt 16 0 1 rZero (by decide) (by decide)

/-! ## Trajectory generator: Stealth.moveMouseToElement and bezierCurve
(stealth.go lines 171-217) -/

/-- Embedding of bezierCurve: a point on a cubic Bezier curve. -/
def bezierCurve (t p0 p1 p2 p3 : ℚ) : ℚ :=
  (1 - t)^3 * p0 + 3 * (1 - t)^2 * t * p1 + 3 * (1 - t) * t^2 * p2 +
    t^3 * p3

theorem bezierCurve_zero (p0 p1 p2 p3 : ℚ) :
    bezierCurve 0 p0 p1 p2 p3 = p0 := by
  rw [bezierCurve]
  ring

theorem bezierCurve_one (p0 p1 p2 p3 : ℚ) :
    bezierCurve 1 p0 p1 p2 p3 = p3 := by
  rw [bezierCurve]
  ring

/-- The ease-in-out weight used for the variable-speed easing. -/
def easeInOut (t : ℚ) : ℚ := t * t * (3 - 2 * t)

/-- The per-step sleep in milliseconds: base * (0.5 + ease * 0.8). -/
def stepDelay (base : ℤ) (t : ℚ) : ℚ :=
  (base : ℚ) * (1/2 + easeInOut t * (4/5))

theorem easeInOut_nonneg (t : ℚ) (h0 : 0 ≤ t) (h1 : t ≤ 1) :
    0 ≤ easeInOut t := by
  rw [easeInOut]
  have : (0 : ℚ) ≤ 3 - 2 * t := by linarith
  positivity

theorem easeInOut_mono (t1 t2 : ℚ) (h01 : 0 ≤ t1) (h12 : t1 ≤ t2)
    (h2 : t2 ≤ 1) : easeInOut t1 ≤ easeInOut t2 := by
  have h02 : 0 ≤ t2 := h01.trans h12
  have h11 : t1 ≤ 1 := h12.trans h2
  have hA : 0 ≤ t1 * (1 - t1) := mul_nonneg h01 (by linarith)
  have hB : 0 ≤ t2 * (1 - t2) := mul_nonneg h02 (by linarith)
  have hC : 0 ≤ t1 * (1 - t2) := mul_nonneg h01 (by linarith)
  have hD : 0 ≤ t2 * (1 - t1) := mul_nonneg h02 (by linarith)
  have key : 0 ≤ (t2 - t1) *
      (3 * (t1 + t2) - 2 * (t1^2 + t1 * t2 + t2^2)) := by
    apply mul_nonneg (by linarith)
    nlinarith [hA, hB, hC, hD]
  rw [easeInOut, easeInOut]
  nlinarith [key]

theorem stepDelay_pos (base : ℤ) (t : ℚ) (hb : 4 ≤ base) (h0 : 0 ≤ t)
    (h1 : t ≤ 1) : 0 < stepDelay base t := by
  rw [stepDelay]
  have he := easeInOut_nonneg t h0 h1
  have hbq : (4 : ℚ) ≤ (base : ℚ) := by exact_mod_cast hb
  nlinarith [he, hbq]

/-- Mouse-movement section of the stealth configuration (the fields the
trajectory code reads). -/
structure MouseConfig where
  microCorrections : Bool

/-- The random draws consumed by one call of moveMouseToElement: the step
count draw, the four control-point jitters, and per-step micro-correction
draws and base-delay draws. -/
structure MoveDraws where
  stepsDraw : ℕ
  cp1xDraw : ℚ
  cp1yDraw : ℚ
  cp2xDraw : ℚ
  cp2yDraw : ℚ
  microFloat : ℕ → ℚ
  jitterX : ℕ → ℚ
  jitterY : ℕ → ℚ
  baseDraw : ℕ → ℕ

/-- One step of the trajectory loop: the Bezier position at t = i/steps,
optionally shifted by a micro-correction jitter, paired with the eased
sleep duration. -/
def trajStep (cfg : MouseConfig) (r : MoveDraws) (cur tgt cp1 cp2 : ℚ × ℚ)
    (steps i : ℕ) : (ℚ × ℚ) × ℚ :=
  let t : ℚ := (i : ℚ) / (steps : ℚ)
  let x := bezierCurve t cur.1 cp1.1 cp2.1 tgt.1
  let y := bezierCurve t cur.2 cp1.2 cp2.2 tgt.2
  let p :=
    if cfg.microCorrections = true ∧ r.microFloat i < 1/10 then
      (x + (r.jitterX i - 1/2) * 2, y + (r.jitterY i - 1/2) * 2)
    else (x, y)
  (p, stepDelay (4 + ((r.baseDraw i : ℤ) % 6)) t)

/-- Embedding of Stealth.moveMouseToElement as the trajectory it
executes: points paired with the sleep taken after moving to them.  The
start cur is the approximated current position (viewport center) and tgt
the jittered element center. -/
def moveMouseToElement (cfg : MouseConfig) (r : MoveDraws)
    (cur tgt : ℚ × ℚ) : List ((ℚ × ℚ) × ℚ) :=
  let steps := r.stepsDraw % 15 + 25
  let cp1 := (cur.1 + (tgt.1 - cur.1) * (3/10) + (r.cp1xDraw - 1/2) * 30,
              cur.2 + (tgt.2 - cur.2) * (3/10) + (r.cp1yDraw - 1/2) * 20)
  let cp2 := (cur.1 + (tgt.1 - cur.1) * (6/10) + (r.cp2xDraw - 1/2) * 30,
              cur.2 + (tgt.2 - cur.2) * (6/10) + (r.cp2yDraw - 1/2) * 20)
  (List.range (steps + 1)).map (trajStep cfg r cur tgt cp1 cp2 steps)

/-- Move draw record with zero draws and centered control jitters. -/
def rMove : MoveDraws :=
  { stepsDraw := 0, cp1xDraw := 1/2, cp1yDraw := 1/2, cp2xDraw := 1/2,
    cp2yDraw := 1/2, microFloat := fun _ => 0, jitterX := fun _ => 0,
    jitterY := fun _ => 0, baseDraw := fun _ => 0 }

/-- Counterexample to claim C3 as stated: with micro-corrections enabled
and a micro-correction draw firing at step 0, the first trajectory point
is the start shifted by the jitter (-1, -1), not the start itself. -/
theorem traj_first_point_counterexample :
    (moveMouseToElement { microCorrections := true } rMove
        (100, 100) (200, 200)).head?.map Prod.fst =
      some ((99 : ℚ), (99 : ℚ)) ∧
    ((99 : ℚ), (99 : ℚ)) ≠ ((100 : ℚ), (100 : ℚ)) := by
  constructor
  · rw [moveMouseToElement]
    simp only [rMove, List.range_succ_eq_map, List.map_cons,
      List.head?_cons, Option.map_some']
    rw [trajStep]
    norm_num [bezierCurve_zero]
  · decide

/-- Claim C3 amended: in the absence of micro-correction jitter
(micro_corrections disabled), for every start and target the trajectory
begins exactly at the start, ends exactly at the target (hence within any
positive epsilon), its step count r.stepsDraw % 15 + 25 lies within the
25 to 40 bound (the code draws 25 to 39 steps, producing steps + 1
points), and every per-step delay is strictly positive.  With
micro-corrections enabled the endpoint clauses can fail. -/
theorem traj_endpoints_bounds_delays (cfg : MouseConfig) (r : MoveDraws)
    (cur tgt : ℚ × ℚ) (hm : cfg.microCorrections = false) :
    (moveMouseToElement cfg r cur tgt).head?.map Prod.fst = some cur ∧
    (moveMouseToElement cfg r cur tgt).getLast?.map Prod.fst = some tgt ∧
    (moveMouseToElement cfg r cur tgt).length = r.stepsDraw % 15 + 26 ∧
    25 ≤ r.stepsDraw % 15 + 25 ∧ r.stepsDraw % 15 + 25 ≤ 40 ∧
    ∀ p ∈ moveMouseToElement cfg r cur tgt, 0 < p.2 := by
  have hsne : ((r.stepsDraw % 15 + 25 : ℕ) : ℚ) ≠ 0 := by
    exact_mod_cast Nat.succ_ne_zero (r.stepsDraw % 15 + 24)
  refine ⟨?_, ?_, ?_, by omega, by omega, ?_⟩
  · rw [moveMouseToElement]
    simp only [List.range_succ_eq_map, List.map_cons, List.head?_cons,
      Option.map_some']
    rw [trajStep]
    simp only [hm, Bool.false_eq_true, false_and, if_false, Nat.cast_zero,
      zero_div, bezierCurve_zero]
  · rw [moveMouseToElement]
    simp only [List.range_succ, List.map_append, List.map_cons,
      List.map_nil, List.getLast?_concat, Option.map_some']
    rw [trajStep]
    simp only [hm, Bool.false_eq_true, false_and, if_false,
      div_self hsne, bezierCurve_one]
  · rw [moveMouseToElement]
    simp only [List.length_map, List.length_range]
  · intro p hp
    rw [moveMouseToElement] at hp
    simp only [List.mem_map, List.mem_range] at hp
    rcases hp with ⟨i, hi, hpi⟩
    subst hpi
    rw [trajStep]
    simp only
    apply stepDelay_pos
    · have := Int.emod_nonneg ((r.baseDraw i : ℤ)) (show (6:ℤ) ≠ 0 by omega)
      omega
    · positivity
    · rw [div_le_one (by positivity)]
      exact_mod_cast Nat.lt_succ_iff.mp hi

/-- Witness for the amended C3 at a concrete input. -/
theorem traj_endpoints_bounds_delays_witness :
    (moveMouseToElement { microCorrections := false } rMove
        (100, 100) (200, 200)).head?.map Prod.fst = some (100, 100) ∧
    (moveMouseToElement { microCorrections := false } rMove
        (100, 100) (200, 200)).getLast?.map Prod.fst = some (200, 200) ∧
    (moveMouseToElement { microCorrections := false } rMove
        (100, 100) (200, 200)).length = rMove.stepsDraw % 15 + 26 ∧
    25 ≤ rMove.stepsDraw % 15 + 25 ∧ rMove.stepsDraw % 15 + 25 ≤ 40 ∧
    ∀ p ∈ moveMouseToElement { microCorrections := false } rMove
        (100, 100) (200, 200), 0 < p.2 :=
  traj_endpoints_bounds_delays { microCorrections := false } rMove
    (100, 100) (200, 200) rfl

/-- Move draw record selecting 30 steps, otherwise zero draws. -/
def rMove30 : MoveDraws :=
  { stepsDraw := 5, cp1xDraw := 1/2, cp1yDraw := 1/2, cp2xDraw := 1/2,
    cp2yDraw := 1/2, microFloat := fun _ => 1, jitterX := fun _ => 0,
    jitterY := fun _ => 0, baseDraw := fun _ => 0 }

/-- Counterexample to claim C4 as stated: with a constant base draw the
delay at the first step (t = 0) is 2 ms while the delay at the middle
step (t = 1/2) is 18/5 ms, so delays near t = 0 do not exceed delays in
the middle; the easing makes delays increase along the path rather than
peak at both ends. -/
theorem traj_delay_ends_counterexample :
    ((moveMouseToElement { microCorrections := false } rMove30
        (0, 0) (1, 1))[0]?).map Prod.snd = some (2 : ℚ) ∧
    ((moveMouseToElement { microCorrections := false } rMove30
        (0, 0) (1, 1))[15]?).map Prod.snd = some ((18 : ℚ)/5) ∧
    ¬ ((18 : ℚ)/5 ≤ 2) := by
  refine ⟨?_, ?_, by norm_num⟩
  · rw [moveMouseToElement]
    rw [List.getElem?_map, List.getElem?_range (by norm_num [rMove30])]
    simp only [Option.map_some']
    rw [trajStep]
    norm_num [rMove30, stepDelay, easeInOut]
  · rw [moveMouseToElement]
    rw [List.getElem?_map, List.getElem?_range (by norm_num [rMove30])]
    simp only [Option.map_some']
    rw [trajStep]
    norm_num [rMove30, stepDelay, easeInOut]

/-- Claim C4 amended: absent micro-correction jitter, the position of
step i of n is the cubic Bezier evaluation at t = i/n and its delay is
base * (1/2 + w * 4/5) with the ease-in-out weight w = t^2 * (3 - 2t);
this weight is monotone non-decreasing on [0, 1], so the scaled delay
grows along the path: motion is slower near the target end only, not at
both ends. -/
theorem traj_bezier_position_delay_monotone (cfg : MouseConfig)
    (r : MoveDraws) (cur tgt : ℚ × ℚ) (hm : cfg.microCorrections = false) :
    (∃ cp1 cp2 : ℚ × ℚ, ∀ i, i ≤ r.stepsDraw % 15 + 25 →
      (moveMouseToElement cfg r cur tgt)[i]? =
        some ((bezierCurve ((i : ℚ) / ((r.stepsDraw % 15 + 25 : ℕ) : ℚ))
                 cur.1 cp1.1 cp2.1 tgt.1,
               bezierCurve ((i : ℚ) / ((r.stepsDraw % 15 + 25 : ℕ) : ℚ))
                 cur.2 cp1.2 cp2.2 tgt.2),
              stepDelay (4 + ((r.baseDraw i : ℤ) % 6))
                ((i : ℚ) / ((r.stepsDraw % 15 + 25 : ℕ) : ℚ)))) ∧
    (∀ (base : ℤ) (t1 t2 : ℚ), 0 ≤ base → 0 ≤ t1 → t1 ≤ t2 → t2 ≤ 1 →
      stepDelay base t1 ≤ stepDelay base t2) := by
  constructor
  · refine ⟨(cur.1 + (tgt.1 - cur.1) * (3/10) + (r.cp1xDraw - 1/2) * 30,
        cur.2 + (tgt.2 - cur.2) * (3/10) + (r.cp1yDraw - 1/2) * 20),
      (cur.1 + (tgt.1 - cur.1) * (6/10) + (r.cp2xDraw - 1/2) * 30,
        cur.2 + (tgt.2 - cur.2) * (6/10) + (r.cp2yDraw - 1/2) * 20),
      fun i hi => ?_⟩
    rw [moveMouseToElement]
    rw [List.getElem?_map, List.getElem?_range (by omega)]
    simp only [Option.map_some']
    rw [trajStep]
    simp only [hm, Bool.false_eq_true, false_and, if_false]
  · intro base t1 t2 hb h0 h12 h2
    rw [stepDelay, stepDelay]
    have hmono := easeInOut_mono t1 t2 h0 h12 h2
    have hbq : (0 : ℚ) ≤ (base : ℚ) := by exact_mod_cast hb
    nlinarith [hmono, hbq]

/-- Witness for the amended C4 at a concrete input. -/
theorem traj_bezier_position_delay_monotone_witness :
    (∃ cp1 cp2 : ℚ × ℚ, ∀ i, i ≤ rMove30.stepsDraw % 15 + 25 →
      (moveMouseToElement { microCorrections := false } rMove30
          (0, 0) (1, 1))[i]? =
        some ((bezierCurve ((i : ℚ) / ((rMove30.stepsDraw % 15 + 25 : ℕ) : ℚ))
                 (0, 0).1 cp1.1 cp2.1 (1, 1).1,
               bezierCurve ((i : ℚ) / ((rMove30.stepsDraw % 15 + 25 : ℕ) : ℚ))
                 (0, 0).2 cp1.2 cp2.2 (1, 1).2),
              stepDelay (4 + ((rMove30.baseDraw i : ℤ) % 6))
                ((i : ℚ) / ((rMove30.stepsDraw % 15 + 25 : ℕ) : ℚ)))) ∧
    (∀ (base : ℤ) (t1 t2 : ℚ), 0 ≤ base → 0 ≤ t1 → t1 ≤ t2 → t2 ≤ 1 →
      stepDelay base t1 ≤ stepDelay base t2) :=
  traj_bezier_position_delay_monotone { microCorrections := false } rMove30
    (0, 0) (1, 1) rfl
